import Mathlib

/-!
Verification development for the `mobilesentrix_tool_v8` scraping tool
(`src/app.py`).  The Python source is shallowly embedded below: pure
helper functions become Lean functions over `String`/`ℚ`, the parsed
HTML document (BeautifulSoup) is abstracted as an `Element` tree that
answers CSS-selector queries, the JSON-LD payloads are an explicit
`Json` inductive, and the network fetcher is a function parameter
returning `Except`.  Python `float` arithmetic is modelled by exact
rationals; `round(x, 2)` is modelled as decimal rounding half-to-even
(CPython's behaviour on doubles) over `ℚ`.
-/

namespace MobileSentrix

/-- Characters matched by the regex class `\s` (the ASCII part, which is
all the source exercises). -/
def wsChar (c : Char) : Bool :=
  c = ' ' || c = '\t' || c = '\n' || c = '\r' || c = '\x0b' || c = '\x0c'

/-- Embeds `clean_text` (app.py lines 30-32): collapse whitespace runs to a
single space and strip the ends; falsy input gives the empty string.
Splitting on whitespace and rejoining with single spaces is equivalent to
`re.sub` with a run-collapsing pattern followed by `strip`. -/
def clean_text (s : String) : String :=
  if s = "" then ""
  else String.intercalate " "
    (((s.toList.splitOnP (fun c => wsChar c)).filter (fun w => w ≠ [])).map
      String.mk)

/-- Numeric value of a list of decimal digit characters (most significant
first), as a natural number. -/
def natFromDigits (ds : List Char) : ℕ :=
  ds.foldl (fun acc c => 10 * acc + (c.toNat - '0'.toNat)) 0

/-- Models CPython `float(s)` on the decimal forms the source feeds it:
optional surrounding whitespace, optional sign, digits with an optional
fractional part.  Exponents, `inf`/`nan` and digit underscores are outside
the model.  Returns `none` where `float` raises.  The value
`sign · (intPart + fracPart / 10^k)` is assembled with `mkRat` so that it
reduces inside the kernel. -/
def pyFloat? (s : String) : Option ℚ :=
  let cs := ((s.toList.dropWhile (fun c => wsChar c)).reverse.dropWhile
      (fun c => wsChar c)).reverse
  let signAndRest : ℤ × List Char :=
    match cs with
    | '-' :: r => (-1, r)
    | '+' :: r => (1, r)
    | _ => (1, cs)
  let sign := signAndRest.1
  let cs₁ := signAndRest.2
  let ip := cs₁.takeWhile Char.isDigit
  let r₁ := cs₁.drop ip.length
  match r₁ with
  | [] => if ip = [] then none else some (mkRat (sign * natFromDigits ip) 1)
  | '.' :: r₂ =>
    let fp := r₂.takeWhile Char.isDigit
    if r₂.drop fp.length ≠ [] then none
    else if ip = [] ∧ fp = [] then none
    else some (mkRat
      (sign * (natFromDigits ip * 10 ^ fp.length + natFromDigits fp))
      (10 ^ fp.length))
  | _ => none

/-!
`MONEY_RE` (app.py line 27):
`([\$£€]|CA\$)?\s*([0-9]{1,3}(?:,[0-9]{3})*(?:\.[0-9]{2})|[0-9]+(?:\.[0-9]{2})?)`
embedded as an explicit backtracking matcher.  `re.search` semantics:
leftmost starting position wins, and at a position the first alternative
that can be completed wins.  Note that in the first alternative of group 2
the two-decimal fraction is mandatory.
-/

/-- Greedily consume `(?:,[0-9]{3})*`: maximal run of comma-plus-three-digit
groups.  Returns the consumed characters and the remainder. -/
def commaGroups : List Char → List Char × List Char
  | ',' :: d1 :: d2 :: d3 :: rest =>
    if d1.isDigit && d2.isDigit && d3.isDigit then
      let (g, r) := commaGroups rest
      (',' :: d1 :: d2 :: d3 :: g, r)
    else ([], ',' :: d1 :: d2 :: d3 :: rest)
  | rest => ([], rest)

/-- Match `\.[0-9]{2}` at the head: a dot followed by exactly two digits. -/
def fracPart : List Char → Option (List Char × List Char)
  | '.' :: d1 :: d2 :: rest =>
    if d1.isDigit && d2.isDigit then some (['.', d1, d2], rest) else none
  | _ => none

/-- First alternative of group 2: `[0-9]{1,3}(?:,[0-9]{3})*(?:\.[0-9]{2})`.
Backtracking over the digit count and the comma-group count collapses to:
the full leading digit run must have length 1..3 (a shorter prefix leaves a
digit where `,` or `.` is required), and after the maximal comma-group run
(a shorter run leaves a `,` where `.` is required) the mandatory fraction
must follow. -/
def matchAlt1 (cs : List Char) : Option (List Char) :=
  let ds := cs.takeWhile Char.isDigit
  if 1 ≤ ds.length ∧ ds.length ≤ 3 then
    let (g, r) := commaGroups (cs.drop ds.length)
    match fracPart r with
    | some (f, _) => some (ds ++ g ++ f)
    | none => none
  else none

/-- Second alternative of group 2: `[0-9]+(?:\.[0-9]{2})?` — the maximal
digit run, plus a two-decimal fraction when one immediately follows. -/
def matchAlt2 (cs : List Char) : Option (List Char) :=
  let ds := cs.takeWhile Char.isDigit
  if ds.length = 0 then none
  else
    match fracPart (cs.drop ds.length) with
    | some (f, _) => some (ds ++ f)
    | none => some ds

/-- Group 2 of `MONEY_RE`: the first alternative is preferred. -/
def matchGroup2 (cs : List Char) : Option (List Char) :=
  (matchAlt1 cs).orElse (fun _ => matchAlt2 cs)

/-- Consume the optional currency-symbol group `([\$£€]|CA\$)?`.  The
single-symbol class is preferred; if neither branch applies the group
matches empty.  (If the group matched but the remainder fails, retrying
with the empty group cannot succeed either, since the consumed symbol is
neither whitespace nor a digit — so no backtracking is needed.) -/
def afterCurrency (cs : List Char) : List Char :=
  match cs with
  | '$' :: r => r
  | '£' :: r => r
  | '€' :: r => r
  | 'C' :: 'A' :: '$' :: r => r
  | _ => cs

/-- Attempt `MONEY_RE` anchored at the head of `cs`; on success return the
characters captured by group 2. -/
def matchMoneyAt (cs : List Char) : Option (List Char) :=
  matchGroup2 ((afterCurrency cs).dropWhile (fun c => wsChar c))

/-- `MONEY_RE.search`: try every start position left to right, returning
group 2 of the first successful match. -/
def moneySearch : List Char → Option (List Char)
  | [] => none
  | c :: rest => (matchMoneyAt (c :: rest)).orElse (fun _ => moneySearch rest)

/-- Embeds `parse_price_number` (app.py lines 39-47): search for the money
pattern, strip grouping commas from the captured number, and convert.  The
falsy-text guard and the `float` failure path both yield `none`. -/
def parse_price_number (text : String) : Option ℚ :=
  if text = "" then none
  else
    match moneySearch text.toList with
    | none => none
    | some g2 => pyFloat? (String.mk (g2.filter (fun c => c ≠ ',')))


/-!
Spec-side reference parser for the refinement comparison of claim C1: the
claim describes the grouped form as carrying an OPTIONAL two-decimal
fraction, whereas in `MONEY_RE` the fraction of the grouped alternative is
mandatory.  Only `matchAlt1` changes.
-/

/-- The grouped alternative as the claim words it: digits comma-grouped in
threes with an optional two-decimal fraction. -/
def matchAlt1Claimed (cs : List Char) : Option (List Char) :=
  let ds := cs.takeWhile Char.isDigit
  if 1 ≤ ds.length ∧ ds.length ≤ 3 then
    let (g, r) := commaGroups (cs.drop ds.length)
    match fracPart r with
    | some (f, _) => some (ds ++ g ++ f)
    | none => some (ds ++ g)
  else none

/-- Group 2 under the claim's wording. -/
def matchGroup2Claimed (cs : List Char) : Option (List Char) :=
  (matchAlt1Claimed cs).orElse (fun _ => matchAlt2 cs)

/-- The claim's money pattern anchored at a position. -/
def matchMoneyAtClaimed (cs : List Char) : Option (List Char) :=
  matchGroup2Claimed ((afterCurrency cs).dropWhile (fun c => wsChar c))

/-- Search under the claim's wording. -/
def moneySearchClaimed : List Char → Option (List Char)
  | [] => none
  | c :: rest =>
    (matchMoneyAtClaimed (c :: rest)).orElse (fun _ => moneySearchClaimed rest)

/-- The money parser as claim C1 describes it. -/
def parse_price_number_claimed (text : String) : Option ℚ :=
  if text = "" then none
  else
    match moneySearchClaimed text.toList with
    | none => none
    | some g2 => pyFloat? (String.mk (g2.filter (fun c => c ≠ ',')))

/-!
Python `float` arithmetic is modelled over ℚ.  CPython's `round(x, 2)`
rounds the scaled value half-to-even; the model below works on the reduced
numerator/denominator so that it also evaluates inside the kernel
(a rational's denominator is positive, and integer `/` is Euclidean
division, which agrees with flooring for a positive divisor).
-/

/-- Round `n / d` (with `d > 0`) to the nearest integer, ties to even. -/
def roundHalfEvenND (n d : ℤ) : ℤ :=
  let f := n / d
  let t := 2 * (n - f * d)
  if t < d then f
  else if d < t then f + 1
  else if f % 2 = 0 then f else f + 1

/-- Round a rational to the nearest integer, ties to even (CPython
`round(x)` on a float value, modelled exactly). -/
def roundHalfEven (q : ℚ) : ℤ := roundHalfEvenND q.num q.den

/-- Multiply a rational by 100, phrased via `mkRat` so it reduces in the
kernel.  `mul100_eq` below identifies it with `q * 100`. -/
def mul100 (q : ℚ) : ℚ := mkRat (100 * q.num) q.den

/-- CPython `round(x, 2)` on a float value, modelled exactly over ℚ:
round `100·x` half-to-even, then divide by 100. -/
def pyRound2 (q : ℚ) : ℚ := mkRat (roundHalfEven (mul100 q)) 100

/-- Embeds `apply_rules` (app.py lines 54-61): absent base passes through;
a strictly positive `percent_off` scales the price, a strictly positive
`absolute_off` is subtracted, and the result is rounded to two decimals
after adding the `1e-9` bias.  The truthiness test `percent_off and
percent_off > 0` is the conjunction written below. -/
def apply_rules (price : Option ℚ) (percent_off absolute_off : ℚ) :
    Option ℚ :=
  match price with
  | none => none
  | some x =>
    let p₁ := if percent_off ≠ 0 ∧ percent_off > 0 then
        x * (1 - percent_off / 100) else x
    let p₂ := if absolute_off ≠ 0 ∧ absolute_off > 0 then
        p₁ - absolute_off else p₁
    some (pyRound2 (p₂ + 1 / 1000000000))

/-- Uppercase a string, ASCII-wise (Python `str.upper` on the inputs the
source uses). -/
def pyUpper (s : String) : String := String.mk (s.toList.map Char.toUpper)

/-- Embeds `CURRENCY_SYMBOLS` (app.py line 28). -/
def CURRENCY_SYMBOLS : List (String × String) :=
  [("USD", "$"), ("CAD", "CA$"), ("usd", "$"), ("cad", "CA$")]

/-- Python's substring containment `needle in haystack`, over char lists. -/
def inStr (needle : List Char) : List Char → Bool
  | [] => needle.isEmpty
  | c :: r => needle.isPrefixOf (c :: r) || inStr needle r

/-- Embeds `host_currency` (app.py lines 34-37): lowercase the host, then
test for a `.ca` suffix, a `ca.` prefix, or a `.ca.` infix. -/
def host_currency (host : String) : String :=
  let h := host.toList.map Char.toLower
  if ".ca".toList.isSuffixOf h ∨ "ca.".toList.isPrefixOf h ∨
      inStr ".ca.".toList h then "CAD"
  else "USD"

/-- Insert a comma after every three characters of a reversed digit list
(thousands grouping, working from the least significant end). -/
def commaChunkRev : List Char → List Char
  | a :: b :: c :: d :: rest => a :: b :: c :: ',' :: commaChunkRev (d :: rest)
  | l => l

/-- Two-digit zero-padded decimal string for the cents `k < 100`. -/
def twoPad (k : ℕ) : String :=
  if k < 10 then "0" ++ Nat.repr k else Nat.repr k

/-- Models the Python format expression `f"{val:,.2f}"`: round to two
decimals half-to-even, render with a minus sign for negative inputs, comma
group the integer digits, and zero-pad the cents. -/
def pyFormatComma2 (v : ℚ) : String :=
  let r := roundHalfEven (mul100 v)
  let n := r.natAbs
  (if v < 0 then "-" else "") ++
    String.mk ((commaChunkRev (Nat.repr (n / 100)).toList.reverse).reverse) ++
    "." ++ twoPad (n % 100)

/-- Embeds `fmt_price` (app.py lines 49-52): absent value gives the empty
string; otherwise the symbol is the explicit currency-code lookup, falling
back to the host-inferred currency's lookup, falling back to `"$"`, and is
prefixed to the grouped two-decimal rendering. -/
def fmt_price (val : Option ℚ) (currency : Option String) (host : String) :
    String :=
  match val with
  | none => ""
  | some v =>
    let sym := ((CURRENCY_SYMBOLS.lookup (pyUpper (currency.getD ""))).orElse
        (fun _ => CURRENCY_SYMBOLS.lookup (host_currency host))).getD "$"
    sym ++ pyFormatComma2 v


/-!
JSON values, as decoded by `json.loads` from the `application/ld+json`
script blocks.  Numbers are modelled as exact rationals.
-/

inductive Json where
  | null : Json
  | bool (b : Bool) : Json
  | num (q : ℚ) : Json
  | str (s : String) : Json
  | arr (items : List Json) : Json
  | obj (fields : List (String × Json)) : Json

/-- Python `dict.get` on a decoded JSON object (`none` when absent). -/
def Json.get (j : Json) (k : String) : Option Json :=
  match j with
  | .obj kvs => kvs.lookup k
  | _ => none

/-- Is this value a dict whose `@type` equals the string `Product`? -/
def isProductDict (j : Json) : Bool :=
  match j with
  | .obj kvs =>
    match kvs.lookup "@type" with
    | some (.str t) => t = "Product"
    | _ => false
  | _ => false

/-- The `Product`-typed dicts of a candidate's `@graph` list (app.py lines
133-136); empty when the candidate is not a dict or has no list-valued
`@graph`. -/
def graphProducts (j : Json) : List Json :=
  match j with
  | .obj kvs =>
    match kvs.lookup "@graph" with
    | some (.arr g) => g.filter (fun x => isProductDict x)
    | _ => []
  | _ => []

/-- What one candidate contributes (app.py lines 130-136): itself when it
is a `Product`-typed dict, then any `Product`-typed dicts of its `@graph`. -/
def candProducts (obj : Json) : List Json :=
  (if isProductDict obj then [obj] else []) ++ graphProducts obj

/-- Candidates of one parsed block (app.py lines 124-129): a dict is its
own sole candidate, a list contributes its elements, anything else none. -/
def blockCandidates (data : Json) : List Json :=
  match data with
  | .obj _ => [data]
  | .arr l => l
  | _ => []

/-- Embeds `find_jsonld_products` (app.py lines 117-137) on the parse
results of the document's `ld+json` blocks (`none` marks a block whose
body `json.loads` rejected, which the source skips). -/
def find_jsonld_products : List (Option Json) → List Json
  | [] => []
  | none :: rest => find_jsonld_products rest
  | some data :: rest =>
    (blockCandidates data).flatMap candProducts ++ find_jsonld_products rest


/-- Models CPython `float(x)` on a decoded JSON value (or `None` for an
absent key): numbers pass through, strings are parsed, booleans coerce to
0/1, everything else raises (`none`). -/
def pyFloatOfJson : Option Json → Option ℚ
  | some (.num q) => some q
  | some (.str s) => pyFloat? s
  | some (.bool b) => some (if b then 1 else 0)
  | _ => none

/-- Decimal digits of `r / d` (for `0 ≤ r < d`), up to `fuel` places; a
bounded model of the fractional expansion used only by `jrepr`. -/
def decDigits : ℕ → ℕ → ℕ → List Char
  | 0, _, _ => []
  | fuel + 1, r, d =>
    if r = 0 then []
    else Char.ofNat ('0'.toNat + r * 10 / d) :: decDigits fuel (r * 10 % d) d

/-- Decimal rendering of an integer. -/
def intRepr (n : ℤ) : String :=
  if n < 0 then "-" ++ Nat.repr n.natAbs else Nat.repr n.natAbs

/-- Decimal rendering of a rational: integral values print without a
fractional part (JSON integers decode to Python `int`), others with up to
ten fractional digits (a bounded model of float repr). -/
def ratRepr (q : ℚ) : String :=
  if q.den = 1 then intRepr q.num
  else intRepr (q.num / (q.den : ℤ)) ++ "." ++
    String.mk (decDigits 10 ((q.num % (q.den : ℤ)).toNat) q.den)

mutual

/-- Python `repr` of a decoded JSON value, used for values nested inside
containers when the source stringifies a non-numeric price. -/
def jrepr : Json → String
  | .null => "None"
  | .bool true => "True"
  | .bool false => "False"
  | .num q => ratRepr q
  | .str s => String.mk ('\'' :: s.toList ++ ['\''])
  | .arr l => "[" ++ String.intercalate ", " (jreprList l) ++ "]"
  | .obj kvs => "\x7b" ++ String.intercalate ", " (jreprKVs kvs) ++ "\x7d"

/-- Renderings of the elements of a JSON array. -/
def jreprList : List Json → List String
  | [] => []
  | j :: rest => jrepr j :: jreprList rest

/-- Renderings of the entries of a JSON object. -/
def jreprKVs : List (String × Json) → List String
  | [] => []
  | (k, v) :: rest =>
    (String.mk ('\'' :: k.toList ++ ['\'']) ++ ": " ++ jrepr v) ::
      jreprKVs rest

end

/-- Python `str(price)` on the value of a JSON `price` key (`None` when
the key is absent). -/
def jsonToStr : Option Json → String
  | none => "None"
  | some (.str s) => s
  | some j => jrepr j

mutual

/-- Body of `price_from_offers` on a present offers value: a dict offer
reads `price` (coerced by `float`, falling back to the money parser on
its string form) and `priceCurrency`; a list offer recurses and keeps the
first hit with a numeric price; anything else yields nothing.  A
non-string `priceCurrency` is modelled as absent (the source passes the
raw value through and would fail only later, in `.upper()`). -/
def pfoJson : Json → Option ℚ × Option String
  | .obj kvs =>
    let price := kvs.lookup "price"
    let currency : Option String :=
      match kvs.lookup "priceCurrency" with
      | some (.str c) => some c
      | _ => none
    (match pyFloatOfJson price with
     | some v => (some v, currency)
     | none => (parse_price_number (jsonToStr price), currency))
  | .arr l => pfoList l
  | _ => (none, none)

/-- Recursion of `price_from_offers` over a list of offers: the first
element producing a numeric price wins. -/
def pfoList : List Json → Option ℚ × Option String
  | [] => (none, none)
  | off :: rest =>
    let vc := pfoJson off
    match vc.1 with
    | some _ => vc
    | none => pfoList rest

end

/-- Embeds `price_from_offers` (app.py lines 139-152); the argument is the
`offers` value of the JSON-LD product, `none` when the key was absent. -/
def price_from_offers (offers : Option Json) : Option ℚ × Option String :=
  match offers with
  | some j => pfoJson j
  | none => (none, none)


/-!
The parsed HTML document (BeautifulSoup) is abstracted as an element that
answers CSS-selector queries: `css sel` lists the elements matching `sel`
inside this one, in document order.  `text` is the element's `get_text()`
and `attrs` its attribute dictionary.  The source's selector strings are
kept verbatim as the query keys.
-/

inductive Element where
  | mk : String → List (String × String) → (String → List Element) → Element

/-- BeautifulSoup `get_text()`. -/
def Element.get_text : Element → String
  | .mk t _ _ => t

/-- BeautifulSoup `el.get(attr)`: the attribute's value, or `None`. -/
def Element.getAttr : Element → String → Option String
  | .mk _ a _, k => a.lookup k

/-- BeautifulSoup `el.select(sel)`. -/
def Element.select : Element → String → List Element
  | .mk _ _ c, s => c s

/-- BeautifulSoup `el.select_one(sel)`: the first match, or `None`. -/
def Element.select_one (e : Element) (s : String) : Option Element :=
  (e.select s).head?

/-- Python truthiness of an optional attribute string: `None` and the
empty string are falsy. -/
def pyTruthy (o : Option String) : Bool :=
  match o with
  | none => false
  | some s => s ≠ ""

/-- Python `a or b` where `a` is an optional attribute value and `b` the
fallback expression's value. -/
def pyOrStr (a : Option String) (b : String) : String :=
  match a with
  | some s => if s = "" then b else s
  | none => b

/-- A fetched page as the scrapers see it: the root element plus the
`json.loads` results of its `application/ld+json` script blocks (`none`
for a block that failed to parse, which the source skips). -/
structure Doc where
  root : Element
  ldjson : List (Option Json)

/-- Embeds `extract_image_url` (app.py lines 196-201): try the selectors
`img[data-src]`, `img[srcset]`, `img[src]` in order; on the first one with
a match, return that element's `data-src` attribute, else its `src`
attribute, else the empty string. -/
def extract_image_url (container : Element) : String :=
  match (container.select_one "img[data-src]").orElse
      (fun _ => (container.select_one "img[srcset]").orElse
        (fun _ => container.select_one "img[src]")) with
  | none => ""
  | some el => pyOrStr (el.getAttr "data-src") (pyOrStr (el.getAttr "src") "")

/-- The ordered title selectors of `extract_title` (app.py line 155). -/
def TITLE_SELECTORS : List String :=
  ["h1.page-title .base", "span[data-ui-id=\"page-title-wrapper\"]",
   "h1.product", "h1"]

/-- The selector loop of `extract_title`: first selector whose element has
non-empty cleaned text wins. -/
def titleFromSelectors (root : Element) : List String → Option String
  | [] => none
  | sel :: rest =>
    match root.select_one sel with
    | some el =>
      let t := clean_text el.get_text
      if t ≠ "" then some t else titleFromSelectors root rest
    | none => titleFromSelectors root rest

/-- Embeds `extract_title` (app.py lines 154-162): the selector cascade,
then the `og:title` metadata content, then the empty string. -/
def extract_title (root : Element) : String :=
  match titleFromSelectors root TITLE_SELECTORS with
  | some t => t
  | none =>
    match root.select_one "meta[property=\"og:title\"]" with
    | some og =>
      if pyTruthy (og.getAttr "content") then
        clean_text ((og.getAttr "content").getD "")
      else ""
    | none => ""

/-- Embeds `extract_canonical_or_og_url` (app.py lines 164-169): a truthy
canonical link href, else a truthy `og:url` content, else the fallback. -/
def extract_canonical_or_og_url (root : Element) (fallback : String) :
    String :=
  let canHref : Option String :=
    match root.select_one "link[rel=\"canonical\"]" with
    | some can =>
      if pyTruthy (can.getAttr "href") then can.getAttr "href" else none
    | none => none
  match canHref with
  | some h => h
  | none =>
    let ogUrl : Option String :=
      match root.select_one "meta[property=\"og:url\"]" with
      | some og =>
        if pyTruthy (og.getAttr "content") then og.getAttr "content" else none
      | none => none
    match ogUrl with
    | some u => u
    | none => fallback

/-- The ordered price selectors of `extract_price` (app.py lines 179-188). -/
def PRICE_SELECTORS : List String :=
  ["span.price-final_price [data-price-amount]",
   "span.price-final_price span.price",
   "div.price-box [data-price-amount]",
   "div.price-box span.price",
   "span[id^=\"product-price-\"] [data-price-amount]",
   "span[id^=\"product-price-\"] span.price",
   "span.price",
   "[class*=\"price\"]", "[id*=\"price\"]"]

/-- Inner loop of `extract_price`: the first element whose cleaned text
parses to a number wins. -/
def priceFromElems : List Element → Option ℚ
  | [] => none
  | e :: rest =>
    match parse_price_number (clean_text e.get_text) with
    | some v => some v
    | none => priceFromElems rest

/-- Outer loop of `extract_price`: try each selector in order, tagging the
result with the selector that matched. -/
def priceFromSelectors (root : Element) :
    List String → Option ℚ × String × String
  | [] => (none, "", "")
  | sel :: rest =>
    match priceFromElems (root.select sel) with
    | some v => (some v, "", sel)
    | none => priceFromSelectors root rest

/-- Embeds `extract_price` (app.py lines 171-194): a truthy
`data-price-amount` attribute that parses as a float wins with tag
`data-price-amount`; otherwise the selector cascade runs; otherwise
everything is empty. -/
def extract_price (root : Element) : Option ℚ × String × String :=
  let dpaAttr : Option String :=
    match root.select_one "[data-price-amount]" with
    | some el =>
      if pyTruthy (el.getAttr "data-price-amount") then
        el.getAttr "data-price-amount"
      else none
    | none => none
  match dpaAttr with
  | some a =>
    match pyFloat? a with
    | some v => (some v, "", "data-price-amount")
    | none => priceFromSelectors root PRICE_SELECTORS
  | none => priceFromSelectors root PRICE_SELECTORS

/-- Embeds `is_product_page` (app.py lines 203-204): a product heading
element, or at least one JSON-LD product. -/
def is_product_page (d : Doc) : Bool :=
  (d.root.select_one "h1.page-title, h1.product").isSome ||
    !(find_jsonld_products d.ldjson).isEmpty

/-- Embeds `is_category_page` (app.py lines 206-209): any of the three
listing fingerprints. -/
def is_category_page (d : Doc) : Bool :=
  (d.root.select_one "ul.product-listing li.item").isSome ||
    (d.root.select_one "ol.products li.product-item").isSome ||
    (d.root.select_one "div.product-item-info, div.product-card, li.product").isSome

/-- The page-type classification implicit in `scrape_url`'s dispatch
(app.py lines 350-356): product wins over category; anything else is
unknown (and is handled like a product downstream). -/
inductive PageType where
  | PRODUCT : PageType
  | CATEGORY : PageType
  | UNKNOWN : PageType
deriving DecidableEq

/-- The Page Classifier: `is_product_page` first, then `is_category_page`. -/
def classify (d : Doc) : PageType :=
  if is_product_page d then .PRODUCT
  else if is_category_page d then .CATEGORY
  else .UNKNOWN

/-- Scan for `://`, returning whatever follows it. -/
def afterScheme? : List Char → Option (List Char)
  | [] => none
  | ':' :: '/' :: '/' :: r => some r
  | _ :: r => afterScheme? r

/-- Models `urlparse(url).hostname or ''`: the lowercased host between the
`://` and the next delimiter; empty when the URL carries no authority.
Userinfo syntax is outside the model. -/
def hostOf (u : String) : String :=
  match afterScheme? u.toList with
  | some r => String.mk
      ((r.takeWhile (fun c => ¬(c = '/' ∨ c = ':' ∨ c = '?' ∨ c = '#'))).map
        Char.toLower)
  | none => ""

/-- Split a URL into everything up to and including `://` and the rest. -/
def splitAtScheme : List Char → Option (List Char × List Char)
  | [] => none
  | ':' :: '/' :: '/' :: r => some ([':', '/', '/'], r)
  | c :: r => (splitAtScheme r).map (fun p => (c :: p.1, p.2))

/-- Models `urllib.parse.urljoin` on the common cases the source meets:
an empty href keeps the base, an absolute href wins, a root-relative href
joins the base's scheme and host, and any other href replaces the last
path segment of the base. -/
def urljoin (base href : String) : String :=
  if href = "" then base
  else if "http://".toList.isPrefixOf href.toList ∨
      "https://".toList.isPrefixOf href.toList then href
  else
    match splitAtScheme base.toList with
    | none => href
    | some (sch, rest) =>
      let hostPart := rest.takeWhile (fun c => c ≠ '/')
      let pathPart := rest.drop hostPart.length
      if href.toList.head? = some '/' then String.mk (sch ++ hostPart) ++ href
      else if pathPart = [] then String.mk (sch ++ hostPart) ++ "/" ++ href
      else
        let revPath := pathPart.reverse
        let keptRev := revPath.drop (revPath.takeWhile (fun c => c ≠ '/')).length
        String.mk (sch ++ hostPart ++ keptRev.reverse) ++ href

/-- Embeds `find_next_page_url` (app.py lines 211-215): the first
next-page candidate with a truthy href, resolved against the base URL. -/
def find_next_page_url (root : Element) (base_url : String) :
    Option String :=
  match root.select_one "li.pages-item-next a, a.action.next, a[rel=\"next\"]" with
  | some cand =>
    if pyTruthy (cand.getAttr "href") then
      some (urljoin base_url ((cand.getAttr "href").getD ""))
    else none
  | none => none


/-- Embeds the dataclass `Item` (app.py lines 64-76). -/
structure Item where
  url : String
  site : String
  title : String
  price_value : Option ℚ
  price_currency : Option String
  price_text : String
  discounted_value : Option ℚ
  discounted_formatted : String
  original_formatted : String
  source : String
  image_url : String
deriving DecidableEq

/-- The price rules dict: both values already coerced to numbers, as the
call sites do with `float(rules.get(...) or 0.0)`. -/
structure Rules where
  percent_off : ℚ
  absolute_off : ℚ

/-- Embeds `scrape_product` (app.py lines 218-258).  The host comes from
the fetch-final URL before the canonical rewrite; JSON-LD supplies title
and price when available (a non-string `name` is modelled as empty — the
source would crash in `clean_text` there); the DOM cascades fill whatever
is missing; the image is scoped to the first gallery container when one
exists. -/
def scrape_product (final_url : String) (d : Doc) (rules : Rules) :
    List Item :=
  let host := hostOf final_url
  let final_url' := extract_canonical_or_og_url d.root final_url
  let jl := find_jsonld_products d.ldjson
  let init : String × Option ℚ × Option String × String :=
    match jl with
    | [] => ("", none, none, "product")
    | obj :: _ =>
      let title := clean_text (match obj.get "name" with
        | some (.str s) => s
        | _ => "")
      let pc := price_from_offers (obj.get "offers")
      match pc.1 with
      | some pv => (title, some pv, pc.2, "jsonld")
      | none => (title, none, none, "product")
  let title₀ := init.1
  let title := if title₀ = "" then extract_title d.root else title₀
  let pcs : Option ℚ × Option String × String :=
    match init.2.1 with
    | some _ => (init.2.1, init.2.2.1, init.2.2.2)
    | none =>
      let ep := extract_price d.root
      let currency :=
        if ep.2.1 ≠ "" then some ep.2.1 else init.2.2.1
      (ep.1, currency, if ep.1.isSome then ep.2.2 else init.2.2.2)
  let price_val := pcs.1
  let currency := pcs.2.1
  let source := pcs.2.2
  let gal := d.root.select_one
    ".gallery-placeholder, .product.media, .fotorama, .product-image"
  let img := extract_image_url (gal.getD d.root)
  let final_price := apply_rules price_val rules.percent_off rules.absolute_off
  [{ url := final_url', site := host, title := title,
     price_value := price_val,
     price_currency := some (pyOrStr currency (host_currency host)),
     price_text := if price_val.isSome then "" else "price_not_found_or_hidden",
     discounted_value := final_price,
     discounted_formatted :=
       if final_price.isSome then fmt_price final_price currency host else "",
     original_formatted := fmt_price price_val currency host,
     source := source, image_url := img }]

/-- One listing card of `scrape_category_page` (app.py lines 272-304):
cards without an `a[href]` anchor are skipped; price comes from a truthy
`data-price-amount` attribute, else from the money parser on the price
selector's cleaned text. -/
def card_item (final_url host : String) (rules : Rules) (card : Element) :
    Option Item :=
  match card.select_one "a[href]" with
  | none => none
  | some a =>
    let title := clean_text a.get_text
    let href := pyOrStr (a.getAttr "href") ""
    let prod_url := urljoin final_url href
    let image := extract_image_url card
    let price_val₀ : Option ℚ :=
      match card.select_one "[data-price-amount]" with
      | some pel =>
        if pyTruthy (pel.getAttr "data-price-amount") then
          pyFloat? ((pel.getAttr "data-price-amount").getD "")
        else none
      | none => none
    let ptv : String × Option ℚ :=
      match price_val₀ with
      | some _ => ("", price_val₀)
      | none =>
        let price_text :=
          match card.select_one ".price, .price-final_price .price, [class*=\"price\"]" with
          | some pt => clean_text pt.get_text
          | none => ""
        (price_text, parse_price_number price_text)
    let price_text := ptv.1
    let price_val := ptv.2
    let final_price := apply_rules price_val rules.percent_off rules.absolute_off
    some
      { url := prod_url, site := host, title := title,
        price_value := price_val,
        price_currency := some (host_currency host),
        price_text := if price_val.isSome then "" else price_text,
        discounted_value := final_price,
        discounted_formatted :=
          if final_price.isSome then fmt_price final_price none host else "",
        original_formatted := fmt_price price_val none host,
        source := "category-card", image_url := image }

/-- Embeds `scrape_category_page` (app.py lines 260-306): primary listing
cards, else the fallback card selectors; one item per card with an anchor,
in document order. -/
def scrape_category_page (final_url : String) (d : Doc) (rules : Rules) :
    List Item :=
  let host := hostOf final_url
  let cards₀ := d.root.select "ul.product-listing li.item"
  let cards :=
    if cards₀.isEmpty then
      d.root.select
        "ol.products li.product-item, div.product-item-info, div.product-card, li.product"
    else cards₀
  cards.filterMap (card_item final_url host rules)

/-- The network fetcher collaborator (`get_html_safe` composed with the
HTML parser): either the final URL after redirects plus the parsed page,
or the message string `f"TypeName: detail"` of the caught exception. -/
abbrev Fetch : Type := String → Except String (String × Doc)

/-- The sentinel error row recorded on a fetch failure (app.py lines
326-329 and 344-347). -/
def error_item (url msg : String) : Item :=
  { url := url, site := hostOf url, title := "",
    price_value := none, price_currency := none,
    price_text := "fetch_failed: " ++ msg,
    discounted_value := none, discounted_formatted := "",
    original_formatted := "", source := "error", image_url := "" }

/-- What one run of the pagination loop observed: the accumulated items,
the URLs handed to the fetcher, and the resolved (final) URLs of the
successful fetches, in order. -/
structure CrawlTrace where
  items : List Item
  fetched : List String
  resolved : List String
deriving DecidableEq

/-- Embeds the `while` loop of `scrape_category_all_pages` (app.py lines
316-339), with the remaining page budget `max_pages - pages` as fuel: stop
on an empty URL or an exhausted budget; a fetch failure appends one error
row and stops; otherwise extract the page's cards, add the resolved URL to
the visited set, and advance to the next-page URL unless it is falsy or
already visited. -/
def crawl_aux (fetch : Fetch) (rules : Rules) :
    ℕ → String → List String → CrawlTrace
  | 0, _, _ => ⟨[], [], []⟩
  | fuel + 1, url, seen =>
    if url = "" then ⟨[], [], []⟩
    else
      match fetch url with
      | .error e => ⟨[error_item url e], [url], []⟩
      | .ok (final_url, d) =>
        let items := scrape_category_page final_url d rules
        let seen' := seen ++ [final_url]
        match find_next_page_url d.root final_url with
        | none => ⟨items, [url], [final_url]⟩
        | some nxt =>
          if nxt = "" ∨ nxt ∈ seen' then ⟨items, [url], [final_url]⟩
          else
            let t := crawl_aux fetch rules fuel nxt seen'
            ⟨items ++ t.items, url :: t.fetched, final_url :: t.resolved⟩

/-- Embeds `scrape_category_all_pages` (app.py lines 316-339): the items
of the loop, starting with an empty visited set and the full page budget. -/
def scrape_category_all_pages (fetch : Fetch) (start_url : String)
    (rules : Rules) (max_pages : ℕ) : List Item :=
  (crawl_aux fetch rules max_pages start_url []).items

/-- Embeds `scrape_url` (app.py lines 341-356): a fetch failure yields the
single error row; a product page (or an unclassified page) goes through
`scrape_product`; a category page goes through the pagination walker or
the single-page extractor depending on the flag. -/
def scrape_url (fetch : Fetch) (url : String) (rules : Rules)
    (crawl_pagination : Bool) (max_pages : ℕ) : List Item :=
  match fetch url with
  | .error e => [error_item url e]
  | .ok (final_url, d) =>
    if is_product_page d then scrape_product final_url d rules
    else if is_category_page d then
      if crawl_pagination then
        scrape_category_all_pages fetch final_url rules max_pages
      else scrape_category_page final_url d rules
    else scrape_product final_url d rules

/-- Order-preserving first-occurrence deduplication (app.py line 382). -/
def dedup_aux (seen : List String) : List String → List String
  | [] => []
  | u :: rest =>
    if u ∈ seen then dedup_aux seen rest
    else u :: dedup_aux (seen ++ [u]) rest

/-- The deduplicated URL list fed to the scrape loop. -/
def dedup_urls (urls : List String) : List String := dedup_aux [] urls

/-- Embeds the per-URL loop of `api_scrape` (app.py lines 385-387):
extend the item list with each URL's results, in order. -/
def scrape_batch (fetch : Fetch) (urls : List String) (rules : Rules)
    (crawl_pagination : Bool) (max_pages : ℕ) : List Item :=
  urls.foldl
    (fun items u => items ++ scrape_url fetch u rules crawl_pagination max_pages)
    []

/-- The item list produced by the `/api/scrape` endpoint (app.py lines
381-387): deduplicate the request's URLs, then run the scrape loop. -/
def api_scrape_items (fetch : Fetch) (urls : List String) (rules : Rules)
    (crawl_pagination : Bool) (max_pages : ℕ) : List Item :=
  scrape_batch fetch (dedup_urls urls) rules crawl_pagination max_pages

/-!
Spec-side predicates and concrete fixtures used by the closed theorems.
-/

/-- Claim C7's hypothesis on one parsed structured-data block: it is a
dict typed `Product`, or a dict whose `@graph` array holds one, or an
array containing either. -/
def blockHasProduct (j : Json) : Bool :=
  match j with
  | .obj _ => isProductDict j || !(graphProducts j).isEmpty
  | .arr l => l.any (fun o => isProductDict o || !(graphProducts o).isEmpty)
  | _ => false

/-- Image extraction as claim C5 words it (spec-side reference): the first
available of the `data-src`, `srcset`, or `src` attribute of the first
image matched by the selector cascade. -/
def extract_image_url_claimed (c : Element) : String :=
  match (c.select_one "img[data-src]").orElse
      (fun _ => (c.select_one "img[srcset]").orElse
        (fun _ => c.select_one "img[src]")) with
  | none => ""
  | some el => pyOrStr (el.getAttr "data-src")
      (pyOrStr (el.getAttr "srcset") (pyOrStr (el.getAttr "src") ""))

/-- An image carrying `srcset` and `src` attributes but no `data-src`. -/
def imgSrcsetSrc : Element :=
  .mk "" [("srcset", "http://img/S"), ("src", "http://img/T")] (fun _ => [])

/-- A container whose only image matches `img[srcset]` and `img[src]`. -/
def docSrcsetOnly : Element :=
  .mk "" []
    (fun s => if s = "img[srcset]" ∨ s = "img[src]" then [imgSrcsetSrc] else [])

/-- An element with no matches at all. -/
def emptyElement : Element := .mk "" [] (fun _ => [])

/-- A page with no selectable content and no structured data. -/
def emptyDoc : Doc := ⟨emptyElement, []⟩

/-- A page whose only structured-data block nests a `Product` inside a
`@graph` array. -/
def productLdDoc : Doc :=
  ⟨emptyElement,
   [some (.obj [("@graph", .arr [.obj [("@type", .str "Product")]])])]⟩

/-- A category-ish page whose next-page anchor points at `href`. -/
def pageWithNext (href : String) : Doc :=
  ⟨.mk "" []
    (fun s =>
      if s = "li.pages-item-next a, a.action.next, a[rel=\"next\"]" then
        [.mk "" [("href", href)] (fun _ => [])]
      else []), []⟩

/-- A fetcher where the next links of `a` and `b` form a redirect loop:
both URLs resolve to the page `a`, whose next link is `b`. -/
def fetchCycle : Fetch := fun _ => .ok ("http://s/a", pageWithNext "http://s/b")

/-- A redirect-free fetcher whose next links form the two-cycle
`a → b → a`. -/
def fetchCycleSelf : Fetch := fun u =>
  if u = "http://s/a" then .ok (u, pageWithNext "http://s/b")
  else .ok (u, pageWithNext "http://s/a")

/-- A fetcher failing on exactly one URL and succeeding with an empty page
everywhere else. -/
def fetchMid : Fetch := fun u =>
  if u = "http://x/b" then .error "ConnectionError: boom"
  else .ok (u, emptyDoc)

/-!
Bridging lemmas: the kernel-friendly `mkRat` phrasings agree with the
ordinary field operations, and `roundHalfEven` is characterised by the
floor and fractional part.
-/

theorem mul100_eq (q : ℚ) : mul100 q = q * 100 := by
  rw [mul100, Rat.mkRat_eq_div]
  rw [show ((100 * q.num : ℤ) : ℚ) = 100 * (q.num : ℚ) by push_cast; ring]
  rw [mul_div_assoc, Rat.num_div_den, mul_comm]

theorem pyRound2_eq (q : ℚ) :
    pyRound2 q = (roundHalfEven (q * 100) : ℚ) / 100 := by
  rw [pyRound2, mul100_eq, Rat.mkRat_eq_div]
  norm_num

theorem fract_eq_sub_div (q : ℚ) :
    Int.fract q = ((q.num - ⌊q⌋ * q.den : ℤ) : ℚ) / (q.den : ℚ) := by
  have hd : ((q.den : ℚ)) ≠ 0 := by
    exact_mod_cast q.den_pos.ne'
  rw [Int.fract]
  push_cast
  rw [sub_div, Rat.num_div_den, mul_div_assoc, div_self hd, mul_one]

/-- The guarded branches of `apply_rules` never fire for non-positive
parameters. -/
theorem apply_rules_nonpos_eq (x po ao : ℚ) (hpo : po ≤ 0) (hao : ao ≤ 0) :
    apply_rules (some x) po ao = some (pyRound2 (x + 1 / 1000000000)) := by
  simp only [apply_rules]
  rw [if_neg (fun hc => absurd hc.2 (not_lt.mpr hao)),
    if_neg (fun hc => absurd hc.2 (not_lt.mpr hpo))]

theorem roundHalfEven_of_fract_lt (q : ℚ) (h : Int.fract q < 1 / 2) :
    roundHalfEven q = ⌊q⌋ := by
  have hdq : (0 : ℚ) < (q.den : ℚ) := by exact_mod_cast q.den_pos
  have hkey : 2 * (q.num - q.num / (q.den : ℤ) * (q.den : ℤ)) < (q.den : ℤ) := by
    rw [← Rat.floor_def]
    have h2 : ((q.num - ⌊q⌋ * q.den : ℤ) : ℚ) / (q.den : ℚ) < 1 / 2 :=
      fract_eq_sub_div q ▸ h
    rw [div_lt_div_iff₀ hdq (by norm_num : (0 : ℚ) < 2)] at h2
    have h4 : ((2 * (q.num - ⌊q⌋ * q.den) : ℤ) : ℚ) < ((q.den : ℤ) : ℚ) := by
      push_cast at h2 ⊢
      linarith
    exact_mod_cast h4
  rw [roundHalfEven, roundHalfEvenND]
  simp only [if_pos hkey]
  exact (Rat.floor_def).symm

theorem roundHalfEven_of_lt_fract (q : ℚ) (h : 1 / 2 < Int.fract q) :
    roundHalfEven q = ⌊q⌋ + 1 := by
  have hdq : (0 : ℚ) < (q.den : ℚ) := by exact_mod_cast q.den_pos
  have hkey : (q.den : ℤ) < 2 * (q.num - q.num / (q.den : ℤ) * (q.den : ℤ)) := by
    rw [← Rat.floor_def]
    have h2 : (1 : ℚ) / 2 < ((q.num - ⌊q⌋ * q.den : ℤ) : ℚ) / (q.den : ℚ) :=
      fract_eq_sub_div q ▸ h
    rw [div_lt_div_iff₀ (by norm_num : (0 : ℚ) < 2) hdq] at h2
    have h4 : ((q.den : ℤ) : ℚ) < ((2 * (q.num - ⌊q⌋ * q.den) : ℤ) : ℚ) := by
      push_cast at h2 ⊢
      linarith
    exact_mod_cast h4
  rw [roundHalfEven, roundHalfEvenND]
  simp only [if_neg (by omega :
    ¬ 2 * (q.num - q.num / (q.den : ℤ) * (q.den : ℤ)) < (q.den : ℤ)), if_pos hkey]
  rw [Rat.floor_def]

theorem roundHalfEven_add_of_away (q δ : ℚ) (hδ0 : 0 < δ) (hδ : δ < 1 / 2)
    (h : Int.fract q < 1 / 2 - δ ∨ 1 / 2 < Int.fract q) :
    roundHalfEven (q + δ) = roundHalfEven q := by
  have hfl := Int.floor_le q
  have hfr0 := Int.fract_nonneg q
  have hfr1 := Int.fract_lt_one q
  have hq : q = (⌊q⌋ : ℚ) + Int.fract q := by rw [Int.fract]; ring
  rcases h with h | h
  · have h1 : ⌊q + δ⌋ = ⌊q⌋ := by
      rw [Int.floor_eq_iff]
      refine ⟨by linarith, ?_⟩
      linarith [hq]
    have h2 : Int.fract (q + δ) = Int.fract q + δ := by
      rw [Int.fract, Int.fract, h1]; ring
    rw [roundHalfEven_of_fract_lt (q + δ) (by rw [h2]; linarith),
      roundHalfEven_of_fract_lt q (by linarith), h1]
  · rcases lt_or_le (Int.fract q + δ) 1 with hlt | hge
    · have h1 : ⌊q + δ⌋ = ⌊q⌋ := by
        rw [Int.floor_eq_iff]
        refine ⟨by linarith, ?_⟩
        linarith [hq]
      have h2 : Int.fract (q + δ) = Int.fract q + δ := by
        rw [Int.fract, Int.fract, h1]; ring
      rw [roundHalfEven_of_lt_fract (q + δ) (by rw [h2]; linarith),
        roundHalfEven_of_lt_fract q h, h1]
    · have h1 : ⌊q + δ⌋ = ⌊q⌋ + 1 := by
        rw [Int.floor_eq_iff]
        constructor
        · push_cast
          linarith [hq]
        · push_cast
          linarith [hq]
      have h2 : Int.fract (q + δ) = Int.fract q + δ - 1 := by
        rw [Int.fract, Int.fract, h1]; push_cast; ring
      rw [roundHalfEven_of_fract_lt (q + δ) (by rw [h2]; linarith),
        roundHalfEven_of_lt_fract q h, h1]

/-- Unfolding of the rule engine on a present base, for non-negative
parameters: both guarded branches collapse into the single formula. -/
theorem apply_rules_some_eq (x po ao : ℚ) (hpo : 0 ≤ po) (hao : 0 ≤ ao) :
    apply_rules (some x) po ao =
      some (pyRound2 (x * (1 - po / 100) - ao + 1 / 1000000000)) := by
  simp only [apply_rules]
  rcases eq_or_lt_of_le hpo with hpo0 | hpo1
  · rcases eq_or_lt_of_le hao with hao0 | hao1
    · subst hpo0
      subst hao0
      rw [if_neg (by norm_num), if_neg (by norm_num),
        show x * ((1 : ℚ) - 0 / 100) - 0 + 1 / 1000000000 =
          x + 1 / 1000000000 by ring]
    · subst hpo0
      rw [if_pos ⟨hao1.ne', hao1⟩, if_neg (by norm_num),
        show x * ((1 : ℚ) - 0 / 100) - ao + 1 / 1000000000 =
          x - ao + 1 / 1000000000 by ring]
  · rcases eq_or_lt_of_le hao with hao0 | hao1
    · subst hao0
      rw [if_neg (by norm_num), if_pos ⟨hpo1.ne', hpo1⟩,
        show x * ((1 : ℚ) - po / 100) - 0 + 1 / 1000000000 =
          x * (1 - po / 100) + 1 / 1000000000 by ring]
    · rw [if_pos ⟨hao1.ne', hao1⟩, if_pos ⟨hpo1.ne', hpo1⟩]

/-- C2: `applyRules` returns absent for an absent base; otherwise (on the
non-negative parameter domain of `PriceRules`) it multiplies the base by
`1 − percentOff/100`, subtracts `absoluteOff`, and rounds the result plus
the `1e-9` bias to two decimals; in particular
`applyRules(100, 10, 5) = 85.00`, and a negative final price flows through
unfloored (`applyRules(10, 0, 20) = −10.00`). -/
theorem apply_rules_contract (x po ao : ℚ) (hpo : 0 ≤ po) (hao : 0 ≤ ao) :
    apply_rules none po ao = none ∧
    apply_rules (some x) po ao =
      some (pyRound2 (x * (1 - po / 100) - ao + 1 / 1000000000)) ∧
    apply_rules (some 100) 10 5 = some 85 ∧
    apply_rules (some 10) 0 20 = some (-10) := by
  refine ⟨rfl, apply_rules_some_eq x po ao hpo hao, ?_, ?_⟩
  · rw [apply_rules_some_eq 100 10 5 (by norm_num) (by norm_num),
      show (100 : ℚ) * (1 - 10 / 100) - 5 + 1 / 1000000000 =
        mkRat 85000000001 1000000000 by rw [Rat.mkRat_eq_div]; norm_num]
    exact congrArg some (by decide)
  · rw [apply_rules_some_eq 10 0 20 (by norm_num) (by norm_num),
      show (10 : ℚ) * (1 - 0 / 100) - 20 + 1 / 1000000000 =
        mkRat (-9999999999) 1000000000 by rw [Rat.mkRat_eq_div]; push_cast; norm_num]
    refine congrArg some ?_
    rw [show (-10 : ℚ) = mkRat (-10) 1 by rw [Rat.mkRat_eq_div]; norm_num]
    decide

/-- Witness for C2 at the concrete input (100, 10, 5). -/
theorem apply_rules_contract_witness :
    (0 : ℚ) ≤ 10 ∧ (0 : ℚ) ≤ 5 ∧ apply_rules (some 100) 10 5 = some 85 :=
  ⟨by norm_num, by norm_num,
    (apply_rules_contract 100 10 5 (by norm_num) (by norm_num)).2.2.1⟩

/-- C6 fails as stated: at `x = 0.005` the code rounds `x + 1e-9` up to
`0.01`, while `round(x, 2)` rounds half-to-even down to `0`. -/
theorem apply_rules_identity_counterexample :
    apply_rules (some (1 / 200 : ℚ)) 0 0 = some (mkRat 1 100) ∧
    pyRound2 (1 / 200 : ℚ) = 0 ∧
    apply_rules (some (1 / 200 : ℚ)) 0 0 ≠ some (pyRound2 (1 / 200 : ℚ)) := by
  have ha : apply_rules (some (1 / 200 : ℚ)) 0 0 = some (mkRat 1 100) := by
    rw [apply_rules_some_eq (1 / 200) 0 0 le_rfl le_rfl,
      show (1 / 200 : ℚ) * (1 - 0 / 100) - 0 + 1 / 1000000000 =
        mkRat 5000001 1000000000 by rw [Rat.mkRat_eq_div]; norm_num]
    exact congrArg some (by decide)
  have hb : pyRound2 (1 / 200 : ℚ) = 0 := by
    rw [show (1 / 200 : ℚ) = mkRat 1 200 by rw [Rat.mkRat_eq_div]; norm_num]
    decide
  refine ⟨ha, hb, ?_⟩
  rw [ha, hb]
  decide

/-- C6 (amended): `applyRules(x, 0, 0)` equals `round(x, 2)` for every x
whose scaled fractional part `fract(100·x)` is below `1/2 − 1e-7` or above
`1/2`; within that `1e-9`-wide band the added bias moves the rounding (as
the counterexample at `x = 0.005` shows). -/
theorem apply_rules_identity_away_from_boundary (x : ℚ)
    (h : Int.fract (x * 100) < 1 / 2 - 1 / 10000000 ∨
      1 / 2 < Int.fract (x * 100)) :
    apply_rules (some x) 0 0 = some (pyRound2 x) := by
  rw [apply_rules_some_eq x 0 0 le_rfl le_rfl, pyRound2_eq, pyRound2_eq,
    show (x * (1 - 0 / 100) - 0 + 1 / 1000000000) * 100 =
      x * 100 + 1 / 10000000 from by ring,
    roundHalfEven_add_of_away (x * 100) (1 / 10000000) (by norm_num)
      (by norm_num) h]

/-- Witness for the amended C6 at `x = 7/2` (scaled fractional part 0). -/
theorem apply_rules_identity_away_from_boundary_witness :
    apply_rules (some (7 / 2 : ℚ)) 0 0 = some (pyRound2 (7 / 2 : ℚ)) :=
  apply_rules_identity_away_from_boundary (7 / 2)
    (Or.inl (by
      rw [show (7 / 2 : ℚ) * 100 = ((350 : ℤ) : ℚ) by norm_num,
        Int.fract_intCast]
      norm_num))

/-- C10: for a present base and non-positive discount parameters the rule
engine applies neither adjustment, returning `round(x + 1e-9, 2)`:
negative discounts are silently ignored, not applied as markups. -/
theorem apply_rules_nonpositive_ignored (x po ao : ℚ) (hpo : po ≤ 0)
    (hao : ao ≤ 0) :
    apply_rules (some x) po ao = some (pyRound2 (x + 1 / 1000000000)) :=
  apply_rules_nonpos_eq x po ao hpo hao

/-- Witness for C10 at (100, −10, −5): the discounts are ignored and the
result is 100.00. -/
theorem apply_rules_nonpositive_ignored_witness :
    (-10 : ℚ) ≤ 0 ∧ (-5 : ℚ) ≤ 0 ∧
      apply_rules (some 100) (-10) (-5) = some 100 := by
  refine ⟨by norm_num, by norm_num, ?_⟩
  rw [apply_rules_nonpositive_ignored 100 (-10) (-5) (by norm_num) (by norm_num),
    show (100 : ℚ) + 1 / 1000000000 =
      mkRat 100000000001 1000000000 by rw [Rat.mkRat_eq_div]; norm_num]
  exact congrArg some (by decide)

theorem matchGroup2_none_of_noDigit (cs : List Char)
    (h : ∀ c ∈ cs, c.isDigit = false) : matchGroup2 cs = none := by
  have hds : cs.takeWhile Char.isDigit = [] := by
    cases cs with
    | nil => rfl
    | cons c r =>
      rw [List.takeWhile_cons_of_neg]
      simp [h c (List.mem_cons_self c r)]
  simp [matchGroup2, matchAlt1, matchAlt2, hds]

theorem afterCurrency_mem (cs : List Char) :
    ∀ a ∈ afterCurrency cs, a ∈ cs := by
  unfold afterCurrency
  split <;> intro a ha <;> simp_all

theorem matchMoneyAt_none (cs : List Char)
    (h : ∀ c ∈ cs, c.isDigit = false) : matchMoneyAt cs = none := by
  apply matchGroup2_none_of_noDigit
  intro c hc
  exact h c (afterCurrency_mem cs c ((List.dropWhile_sublist _).subset hc))

theorem moneySearch_none (cs : List Char)
    (h : ∀ c ∈ cs, c.isDigit = false) : moneySearch cs = none := by
  induction cs with
  | nil => rfl
  | cons c r ih =>
    rw [moneySearch, matchMoneyAt_none _ h,
      ih (fun a ha => h a (List.mem_cons_of_mem c ha))]
    rfl

/-- C1 (amended): the money parser matches an optional currency symbol,
optional whitespace, and a number that is either comma-grouped WITH a
mandatory two-decimal fraction or a plain decimal/integer run; the first
match's value is returned with grouping commas stripped
(`$1,234.56 → 1234.56`, `€12.00 → 12`, `1234 → 1234`); a comma-grouped
number without a fraction only matches its digits before the first comma
(`1,234 → 1`); any text without a digit yields absent, and absence is the
only failure signal. -/
theorem parse_price_number_amended :
    (∀ text : String, (∀ c ∈ text.toList, c.isDigit = false) →
      parse_price_number text = none) ∧
    parse_price_number "$1,234.56" = some (mkRat 123456 100) ∧
    parse_price_number "€12.00" = some 12 ∧
    parse_price_number "1234" = some 1234 ∧
    parse_price_number "1,234" = some 1 := by
  refine ⟨?_, by decide, by decide, by decide, by decide⟩
  intro text h
  by_cases ht : text = ""
  · simp [parse_price_number, ht]
  · rw [parse_price_number, if_neg ht, moneySearch_none text.toList h]

/-- Witness for the amended C1 on a digit-free text. -/
theorem parse_price_number_amended_witness :
    parse_price_number "no price here" = none :=
  parse_price_number_amended.1 "no price here" (by decide)

/-- C1 fails as stated: on `"1,234"` the claim's pattern (grouped form
with optional fraction) captures `1,234` and yields 1234, but `MONEY_RE`'s
grouped alternative demands the fraction, so the code matches only `1` and
returns 1. -/
theorem parse_price_grouped_counterexample :
    parse_price_number "1,234" = some 1 ∧
    parse_price_number_claimed "1,234" = some 1234 ∧
    parse_price_number "1,234" ≠ parse_price_number_claimed "1,234" :=
  ⟨by decide, by decide, by decide⟩

/-- C8: the currency symbol is resolved in order — explicit currency code
(case-insensitively, `USD → $`, `CAD → CA$`), else the host-inferred
currency (`.ca` suffix or `ca.` subdomain → `CA$`, else `$`), else the
`$` default; an absent value always formats to the empty string. -/
theorem fmt_price_resolution (v : ℚ) (cur : Option String) (host : String) :
    fmt_price none cur host = "" ∧
    (pyUpper (cur.getD "") = "USD" →
      fmt_price (some v) cur host = "$" ++ pyFormatComma2 v) ∧
    (pyUpper (cur.getD "") = "CAD" →
      fmt_price (some v) cur host = "CA$" ++ pyFormatComma2 v) ∧
    (CURRENCY_SYMBOLS.lookup (pyUpper (cur.getD "")) = none →
      fmt_price (some v) cur host =
        (if host_currency host = "CAD" then "CA$" else "$") ++
          pyFormatComma2 v) ∧
    (".ca".toList.isSuffixOf (host.toList.map Char.toLower) = true →
      host_currency host = "CAD") ∧
    ("ca.".toList.isPrefixOf (host.toList.map Char.toLower) = true →
      host_currency host = "CAD") ∧
    (".ca".toList.isSuffixOf (host.toList.map Char.toLower) = false →
      "ca.".toList.isPrefixOf (host.toList.map Char.toLower) = false →
      inStr ".ca.".toList (host.toList.map Char.toLower) = false →
      host_currency host = "USD") := by
  refine ⟨rfl, ?_, ?_, ?_, ?_, ?_, ?_⟩
  · intro h
    simp only [fmt_price, CURRENCY_SYMBOLS]
    rw [h, show List.lookup "USD" [("USD", "$"), ("CAD", "CA$"),
      ("usd", "$"), ("cad", "CA$")] = some "$" from by decide]
    rfl
  · intro h
    simp only [fmt_price, CURRENCY_SYMBOLS]
    rw [h, show List.lookup "CAD" [("USD", "$"), ("CAD", "CA$"),
      ("usd", "$"), ("cad", "CA$")] = some "CA$" from by decide]
    rfl
  · intro h
    have hcases : host_currency host = "CAD" ∨ host_currency host = "USD" := by
      rw [host_currency]
      split
      · exact Or.inl rfl
      · exact Or.inr rfl
    simp only [CURRENCY_SYMBOLS] at h
    rcases hcases with hc | hc <;>
      · simp only [fmt_price, CURRENCY_SYMBOLS]
        rw [h, hc]
        exact congrArg (fun s => s ++ pyFormatComma2 v) (by decide)
  · intro h
    simp only [host_currency]
    rw [if_pos (Or.inl h)]
  · intro h
    simp only [host_currency]
    rw [if_pos (Or.inr (Or.inl h))]
  · intro h1 h2 h3
    simp only [host_currency]
    rw [if_neg (by rintro (hc | hc | hc) <;> simp_all)]

/-- Witness for C8: an explicit lowercase `usd` code resolves to `$` on a
`.com` host. -/
theorem fmt_price_resolution_witness :
    pyUpper ((some "usd").getD "") = "USD" ∧
    fmt_price (some (mkRat 25 2)) (some "usd") "shop.example.com" =
      "$" ++ pyFormatComma2 (mkRat 25 2) :=
  ⟨by decide,
    (fmt_price_resolution (mkRat 25 2) (some "usd") "shop.example.com").2.1
      (by decide)⟩

theorem candProducts_ne_nil (j : Json)
    (h : (isProductDict j || !(graphProducts j).isEmpty) = true) :
    candProducts j ≠ [] := by
  rw [candProducts]
  rcases Bool.or_eq_true_iff.mp h with h1 | h1
  · rw [if_pos h1]
    simp
  · intro hc
    rcases List.append_eq_nil.mp hc with ⟨-, h2⟩
    rw [h2] at h1
    simp at h1

theorem flatMap_candProducts_ne_nil (l : List Json) (o : Json) (ho : o ∈ l)
    (h : candProducts o ≠ []) : l.flatMap candProducts ≠ [] := by
  induction l with
  | nil => cases ho
  | cons x rest ih =>
    rw [List.flatMap_cons]
    intro hc
    rcases List.append_eq_nil.mp hc with ⟨h1, h2⟩
    rcases List.mem_cons.mp ho with rfl | ho'
    · exact h h1
    · exact ih ho' h2

theorem block_contrib_ne_nil (j : Json) (h : blockHasProduct j = true) :
    (blockCandidates j).flatMap candProducts ≠ [] := by
  match j with
  | .obj kvs =>
    rw [blockCandidates, List.flatMap_cons, List.flatMap_nil, List.append_nil]
    exact candProducts_ne_nil _ (by simpa [blockHasProduct] using h)
  | .arr l =>
    rw [blockCandidates]
    rcases (by simpa [blockHasProduct] using h :
        ∃ x ∈ l, isProductDict x = true ∨ ¬graphProducts x = []) with ⟨o, ho, hpo⟩
    refine flatMap_candProducts_ne_nil l o ho (candProducts_ne_nil o ?_)
    rcases hpo with h1 | h1
    · simp [h1]
    · simp [List.isEmpty_iff, h1]
  | .null => simp [blockHasProduct] at h
  | .bool b => simp [blockHasProduct] at h
  | .num q => simp [blockHasProduct] at h
  | .str s => simp [blockHasProduct] at h

theorem find_jsonld_products_ne_nil (blocks : List (Option Json))
    (h : ∃ b ∈ blocks, ∃ j, b = some j ∧ blockHasProduct j = true) :
    find_jsonld_products blocks ≠ [] := by
  induction blocks with
  | nil => rcases h with ⟨b, hb, -⟩; cases hb
  | cons b rest ih =>
    rcases h with ⟨b', hb', j, hj, hpj⟩
    rcases List.mem_cons.mp hb' with rfl | hmem
    · subst hj
      rw [find_jsonld_products]
      intro hc
      rcases List.append_eq_nil.mp hc with ⟨h1, -⟩
      exact block_contrib_ne_nil j hpj h1
    · have hrest := ih ⟨b', hmem, j, hj, hpj⟩
      match b with
      | none =>
        rw [find_jsonld_products]
        exact hrest
      | some data =>
        rw [find_jsonld_products]
        intro hc
        exact hrest (List.append_eq_nil.mp hc).2

/-- C7: a document containing at least one structured-data block whose
object is typed `Product` — including a `Product` nested inside a `@graph`
array, or appearing inside a top-level array — is classified PRODUCT. -/
theorem jsonld_product_classified (d : Doc)
    (h : ∃ b ∈ d.ldjson, ∃ j, b = some j ∧ blockHasProduct j = true) :
    classify d = PageType.PRODUCT := by
  have hne := find_jsonld_products_ne_nil d.ldjson h
  rw [classify, if_pos]
  rw [is_product_page, Bool.or_eq_true]
  right
  simpa using hne

/-- Witness for C7: a document whose sole block nests the `Product` in a
`@graph` array. -/
theorem jsonld_product_classified_witness :
    classify productLdDoc = PageType.PRODUCT :=
  jsonld_product_classified productLdDoc
    ⟨some (.obj [("@graph", .arr [.obj [("@type", .str "Product")]])]),
     List.mem_singleton.mpr rfl,
     .obj [("@graph", .arr [.obj [("@type", .str "Product")]])],
     rfl, by decide⟩

theorem apply_rules_isSome (p : Option ℚ) (po ao : ℚ) :
    (apply_rules p po ao).isSome = p.isSome := by
  cases p <;> rfl

theorem card_item_of_no_anchor (f hst : String) (r : Rules) (c : Element)
    (hc : c.select_one "a[href]" = none) : card_item f hst r c = none := by
  rw [card_item, hc]

theorem card_item_of_anchor (f hst : String) (r : Rules) (c a : Element)
    (hc : c.select_one "a[href]" = some a) :
    ∃ it, card_item f hst r c = some it ∧
      it.image_url = extract_image_url c ∧
      it.discounted_value.isSome = it.price_value.isSome := by
  rw [card_item, hc]
  refine ⟨_, rfl, rfl, ?_⟩
  simp only
  exact apply_rules_isSome _ _ _

theorem filterMap_card_image (f hst : String) (r : Rules)
    (cards : List Element) :
    (cards.filterMap (card_item f hst r)).map Item.image_url =
      (cards.filter (fun c => (c.select_one "a[href]").isSome)).map
        extract_image_url := by
  induction cards with
  | nil => rfl
  | cons c rest ih =>
    rcases ho : c.select_one "a[href]" with _ | a
    · simp [List.filterMap_cons, card_item_of_no_anchor f hst r c ho,
        List.filter_cons, ho, ih]
    · obtain ⟨it, hit, himg, -⟩ := card_item_of_anchor f hst r c a ho
      simp [List.filterMap_cons, hit, List.filter_cons, ho, himg, ih]

/-- C5 (amended): image extraction picks the first image matched by the
cascade `img[data-src]`, `img[srcset]`, `img[src]` and returns its
`data-src` attribute, else its `src` attribute, else the empty string —
the `srcset` value itself is never returned; on a product page it is
scoped to the first gallery/media container when one exists and otherwise
to the whole document, and on a category page it runs per listing card
(for exactly the cards with an anchor). -/
theorem extract_image_contract :
    (∀ c el : Element, c.select_one "img[data-src]" = some el →
      extract_image_url c =
        pyOrStr (el.getAttr "data-src") (pyOrStr (el.getAttr "src") "")) ∧
    (∀ c el : Element, c.select_one "img[data-src]" = none →
      c.select_one "img[srcset]" = some el →
      extract_image_url c =
        pyOrStr (el.getAttr "data-src") (pyOrStr (el.getAttr "src") "")) ∧
    (∀ c el : Element, c.select_one "img[data-src]" = none →
      c.select_one "img[srcset]" = none →
      c.select_one "img[src]" = some el →
      extract_image_url c =
        pyOrStr (el.getAttr "data-src") (pyOrStr (el.getAttr "src") "")) ∧
    (∀ c : Element, c.select_one "img[data-src]" = none →
      c.select_one "img[srcset]" = none →
      c.select_one "img[src]" = none → extract_image_url c = "") ∧
    (∀ (url : String) (d : Doc) (r : Rules),
      (scrape_product url d r).map Item.image_url =
        [extract_image_url ((d.root.select_one
          ".gallery-placeholder, .product.media, .fotorama, .product-image").getD
            d.root)]) ∧
    (∀ (url : String) (d : Doc) (r : Rules),
      (scrape_category_page url d r).map Item.image_url =
        ((if (d.root.select "ul.product-listing li.item").isEmpty then
            d.root.select
              "ol.products li.product-item, div.product-item-info, div.product-card, li.product"
          else d.root.select "ul.product-listing li.item").filter
          (fun c => (c.select_one "a[href]").isSome)).map
          extract_image_url) := by
  refine ⟨?_, ?_, ?_, ?_, ?_, ?_⟩
  · intro c el h1
    rw [extract_image_url, h1]
    rfl
  · intro c el h1 h2
    rw [extract_image_url, h1, h2]
    rfl
  · intro c el h1 h2 h3
    rw [extract_image_url, h1, h2, h3]
    rfl
  · intro c h1 h2 h3
    rw [extract_image_url, h1, h2, h3]
    rfl
  · intro url d r
    rfl
  · intro url d r
    simp only [scrape_category_page]
    exact filterMap_card_image url (hostOf url) r _

/-- Witness for the amended C5 at the concrete srcset-only container: the
element found via `img[srcset]` contributes its `src`, not its `srcset`. -/
theorem extract_image_contract_witness :
    extract_image_url docSrcsetOnly =
      pyOrStr (imgSrcsetSrc.getAttr "data-src")
        (pyOrStr (imgSrcsetSrc.getAttr "src") "") ∧
    extract_image_url docSrcsetOnly = "http://img/T" :=
  ⟨extract_image_contract.2.1 docSrcsetOnly imgSrcsetSrc rfl rfl,
   by decide⟩

/-- C5 fails as stated: on a container whose only image carries `srcset`
and `src`, the claim's first-available rule returns the `srcset` value,
but the code returns the `src` value. -/
theorem image_srcset_counterexample :
    extract_image_url docSrcsetOnly = "http://img/T" ∧
    extract_image_url_claimed docSrcsetOnly = "http://img/S" ∧
    extract_image_url docSrcsetOnly ≠ extract_image_url_claimed docSrcsetOnly :=
  ⟨by decide, by decide, by decide⟩

theorem scrape_product_inv (u : String) (d : Doc) (r : Rules) :
    ∀ it ∈ scrape_product u d r,
      it.discounted_value.isSome = it.price_value.isSome := by
  intro it hit
  simp only [scrape_product, List.mem_singleton] at hit
  subst hit
  exact apply_rules_isSome _ _ _

theorem card_item_inv (f hst : String) (r : Rules) (c : Element) :
    ∀ it, card_item f hst r c = some it →
      it.discounted_value.isSome = it.price_value.isSome := by
  intro it hit
  rcases ho : c.select_one "a[href]" with _ | a
  · rw [card_item_of_no_anchor f hst r c ho] at hit
    cases hit
  · obtain ⟨it', hit', -, hiff⟩ := card_item_of_anchor f hst r c a ho
    rw [hit'] at hit
    injection hit with h
    exact h ▸ hiff

theorem scrape_category_page_inv (u : String) (d : Doc) (r : Rules) :
    ∀ it ∈ scrape_category_page u d r,
      it.discounted_value.isSome = it.price_value.isSome := by
  intro it hit
  rw [scrape_category_page] at hit
  rcases List.mem_filterMap.mp hit with ⟨c, -, hcard⟩
  exact card_item_inv u (hostOf u) r c it hcard

theorem error_item_inv (u e : String) :
    (error_item u e).discounted_value.isSome =
      (error_item u e).price_value.isSome := rfl

theorem crawl_aux_inv (fetch : Fetch) (rules : Rules) :
    ∀ (fuel : ℕ) (url : String) (seen : List String),
      ∀ it ∈ (crawl_aux fetch rules fuel url seen).items,
        it.discounted_value.isSome = it.price_value.isSome := by
  intro fuel
  induction fuel with
  | zero =>
    intro url seen it hit
    simp [crawl_aux] at hit
  | succ fuel ih =>
    intro url seen it hit
    rw [crawl_aux] at hit
    by_cases hu : url = ""
    · rw [if_pos hu] at hit
      simp at hit
    · rw [if_neg hu] at hit
      rcases hf : fetch url with e | ⟨fu, d⟩
      · simp only [hf] at hit
        simp only [List.mem_singleton] at hit
        subst hit
        exact error_item_inv url e
      · simp only [hf] at hit
        rcases hn : find_next_page_url d.root fu with _ | nxt
        · simp only [hn] at hit
          exact scrape_category_page_inv fu d rules it hit
        · simp only [hn] at hit
          by_cases hc : nxt = "" ∨ nxt ∈ seen ++ [fu]
          · rw [if_pos hc] at hit
            exact scrape_category_page_inv fu d rules it hit
          · rw [if_neg hc] at hit
            rcases List.mem_append.mp hit with hl | hr
            · exact scrape_category_page_inv fu d rules it hl
            · exact ih nxt (seen ++ [fu]) it hr

theorem scrape_url_inv (fetch : Fetch) (u : String) (rules : Rules)
    (crawl : Bool) (max_pages : ℕ) :
    ∀ it ∈ scrape_url fetch u rules crawl max_pages,
      it.discounted_value.isSome = it.price_value.isSome := by
  intro it hit
  rw [scrape_url] at hit
  rcases hf : fetch u with e | ⟨fu, d⟩
  · simp only [hf] at hit
    simp only [List.mem_singleton] at hit
    subst hit
    exact error_item_inv u e
  · simp only [hf] at hit
    by_cases h1 : is_product_page d
    · rw [if_pos h1] at hit
      exact scrape_product_inv fu d rules it hit
    · rw [if_neg h1] at hit
      by_cases h2 : is_category_page d
      · rw [if_pos h2] at hit
        cases crawl with
        | true =>
          rw [if_pos rfl] at hit
          exact crawl_aux_inv fetch rules max_pages fu [] it hit
        | false =>
          rw [if_neg (by simp)] at hit
          exact scrape_category_page_inv fu d rules it hit
      · rw [if_neg h2] at hit
        exact scrape_product_inv fu d rules it hit

theorem foldl_append_flatMap (g : String → List Item) (l : List String)
    (init : List Item) :
    l.foldl (fun acc u => acc ++ g u) init = init ++ l.flatMap g := by
  induction l generalizing init with
  | nil => simp
  | cons u rest ih =>
    rw [List.foldl_cons, ih, List.flatMap_cons, ← List.append_assoc]

theorem scrape_batch_eq (fetch : Fetch) (urls : List String) (rules : Rules)
    (crawl : Bool) (max_pages : ℕ) :
    scrape_batch fetch urls rules crawl max_pages =
      urls.flatMap (fun u => scrape_url fetch u rules crawl max_pages) := by
  rw [scrape_batch, foldl_append_flatMap]
  rfl

/-- C9: every item produced by any extraction path — product page,
category card, pagination walker page, or error sentinel — carries a
present `discountedValue` exactly when its `priceValue` is present. -/
theorem discounted_iff_price (fetch : Fetch) (urls : List String)
    (rules : Rules) (crawl : Bool) (max_pages : ℕ) :
    ∀ it ∈ api_scrape_items fetch urls rules crawl max_pages,
      it.discounted_value.isSome = it.price_value.isSome := by
  intro it hit
  rw [api_scrape_items, scrape_batch_eq] at hit
  rcases List.mem_flatMap.mp hit with ⟨u, -, hu⟩
  exact scrape_url_inv fetch u rules crawl max_pages it hu

/-- Witness for C9 on a one-URL batch whose fetch fails: the error
sentinel has neither price nor discounted value. -/
theorem discounted_iff_price_witness :
    error_item "http://x/b" "ConnectionError: boom" ∈
      api_scrape_items fetchMid ["http://x/b"] ⟨0, 0⟩ true 20 ∧
    (error_item "http://x/b" "ConnectionError: boom").discounted_value.isSome =
      (error_item "http://x/b" "ConnectionError: boom").price_value.isSome :=
  ⟨by decide,
   discounted_iff_price fetchMid ["http://x/b"] ⟨0, 0⟩ true 20
     (error_item "http://x/b" "ConnectionError: boom") (by decide)⟩

/-- C4: a fetch failure on one URL of a batch is caught and becomes
exactly one sentinel item, tagged `source = error` with the failure
message in the diagnostic text; the rest of the batch is unaffected — the
output is the concatenation of every URL's own results in order, so no
URL's failure drops a sibling URL's results. -/
theorem batch_failure_isolation (fetch : Fetch) (rules : Rules)
    (crawl : Bool) (max_pages : ℕ) (us₁ us₂ : List String) (u e : String)
    (h : fetch u = .error e) :
    scrape_batch fetch (us₁ ++ u :: us₂) rules crawl max_pages =
      scrape_batch fetch us₁ rules crawl max_pages ++ [error_item u e] ++
        scrape_batch fetch us₂ rules crawl max_pages ∧
    scrape_url fetch u rules crawl max_pages = [error_item u e] ∧
    (error_item u e).source = "error" ∧
    (error_item u e).price_text = "fetch_failed: " ++ e := by
  have hurl : scrape_url fetch u rules crawl max_pages = [error_item u e] := by
    rw [scrape_url, h]
  refine ⟨?_, hurl, rfl, rfl⟩
  rw [scrape_batch_eq, scrape_batch_eq, scrape_batch_eq, List.flatMap_append,
    List.flatMap_cons, hurl, List.append_assoc]

/-- Witness for C4: a three-URL batch whose middle URL fails yields the
first URL's items, the sentinel, and the third URL's items, in order. -/
theorem batch_failure_isolation_witness :
    fetchMid "http://x/b" = .error "ConnectionError: boom" ∧
    scrape_batch fetchMid ["http://x/a", "http://x/b", "http://x/c"]
        ⟨0, 0⟩ true 20 =
      scrape_batch fetchMid ["http://x/a"] ⟨0, 0⟩ true 20 ++
        [error_item "http://x/b" "ConnectionError: boom"] ++
        scrape_batch fetchMid ["http://x/c"] ⟨0, 0⟩ true 20 :=
  ⟨rfl,
   (batch_failure_isolation fetchMid ⟨0, 0⟩ true 20 ["http://x/a"]
     ["http://x/c"] "http://x/b" "ConnectionError: boom" rfl).1⟩

theorem crawl_aux_fetched_length (fetch : Fetch) (rules : Rules) :
    ∀ (fuel : ℕ) (url : String) (seen : List String),
      (crawl_aux fetch rules fuel url seen).fetched.length ≤ fuel := by
  intro fuel
  induction fuel with
  | zero =>
    intro url seen
    simp [crawl_aux]
  | succ fuel ih =>
    intro url seen
    rw [crawl_aux]
    by_cases hu : url = ""
    · rw [if_pos hu]
      simp
    · rw [if_neg hu]
      rcases hf : fetch url with e | ⟨fu, d⟩
      · simp only [hf]
        simp
      · simp only [hf]
        rcases hn : find_next_page_url d.root fu with _ | nxt
        · simp only [hn]
          simp
        · simp only [hn]
          by_cases hc : nxt = "" ∨ nxt ∈ seen ++ [fu]
          · rw [if_pos hc]
            simp
          · rw [if_neg hc]
            simp only [List.length_cons]
            exact Nat.succ_le_succ (ih nxt (seen ++ [fu]))

theorem crawl_aux_trace_inv (fetch : Fetch) (rules : Rules)
    (hnr : ∀ u fu d, fetch u = .ok (fu, d) → fu = u) :
    ∀ (fuel : ℕ) (url : String) (seen : List String), url ∉ seen →
      ((crawl_aux fetch rules fuel url seen).fetched.Nodup ∧
        ∀ x ∈ (crawl_aux fetch rules fuel url seen).fetched, x ∉ seen) ∧
      ((crawl_aux fetch rules fuel url seen).resolved.Nodup ∧
        ∀ x ∈ (crawl_aux fetch rules fuel url seen).resolved, x ∉ seen) := by
  intro fuel
  induction fuel with
  | zero =>
    intro url seen hus
    simp [crawl_aux]
  | succ fuel ih =>
    intro url seen hus
    rw [crawl_aux]
    by_cases hu : url = ""
    · rw [if_pos hu]
      simp
    · rw [if_neg hu]
      rcases hf : fetch url with e | ⟨fu, d⟩
      · simp only [hf]
        simp [hus]
      · have hfu : fu = url := hnr url fu d hf
        subst hfu
        simp only [hf]
        rcases hn : find_next_page_url d.root fu with _ | nxt
        · simp only [hn]
          simp [hus]
        · simp only [hn]
          by_cases hc : nxt = "" ∨ nxt ∈ seen ++ [fu]
          · rw [if_pos hc]
            simp [hus]
          · rw [if_neg hc]
            have hnx : nxt ∉ seen ++ [fu] := fun hmem => hc (Or.inr hmem)
            obtain ⟨⟨hfn, hfm⟩, hrn, hrm⟩ := ih nxt (seen ++ [fu]) hnx
            have hself : fu ∈ seen ++ [fu] :=
              List.mem_append_right seen (List.mem_singleton.mpr rfl)
            refine ⟨⟨?_, ?_⟩, ?_, ?_⟩
            · exact List.nodup_cons.mpr ⟨fun hmem => hfm fu hmem hself, hfn⟩
            · intro x hx
              rcases List.mem_cons.mp hx with rfl | hx'
              · exact hus
              · exact fun hxs => hfm x hx' (List.mem_append_left _ hxs)
            · exact List.nodup_cons.mpr ⟨fun hmem => hrm fu hmem hself, hrn⟩
            · intro x hx
              rcases List.mem_cons.mp hx with rfl | hx'
              · exact hus
              · exact fun hxs => hrm x hx' (List.mem_append_left _ hxs)

/-- C3 (amended): the Pagination Walker performs at most `maxPages` fetch
iterations for every fetcher and page graph, cycles included; and when the
fetcher is redirect-free (every fetch resolves to the URL that was
requested) it never fetches the same URL twice and never obtains the same
resolved URL twice.  When redirects map distinct next-link URLs onto an
already-visited resolved page, the visited-set guard — which compares raw
next-link URLs against resolved URLs — does not prevent re-visiting (see
the counterexample). -/
theorem pagination_budget_and_no_revisit (fetch : Fetch) (rules : Rules)
    (max_pages : ℕ) (start : String) :
    scrape_category_all_pages fetch start rules max_pages =
      (crawl_aux fetch rules max_pages start []).items ∧
    (crawl_aux fetch rules max_pages start []).fetched.length ≤ max_pages ∧
    ((∀ u fu d, fetch u = .ok (fu, d) → fu = u) →
      (crawl_aux fetch rules max_pages start []).fetched.Nodup ∧
      (crawl_aux fetch rules max_pages start []).resolved.Nodup) :=
  ⟨rfl, crawl_aux_fetched_length fetch rules max_pages start [],
   fun hnr =>
     ⟨((crawl_aux_trace_inv fetch rules hnr max_pages start
         [] (List.not_mem_nil start)).1).1,
      ((crawl_aux_trace_inv fetch rules hnr max_pages start
         [] (List.not_mem_nil start)).2).1⟩⟩

/-- Witness for the amended C3: on the redirect-free two-cycle
`a → b → a` with budget 3 the walker fetches `a` then `b` and stops —
within budget and with no repeats. -/
theorem pagination_budget_and_no_revisit_witness :
    (crawl_aux fetchCycleSelf ⟨0, 0⟩ 3 "http://s/a" []).fetched.length ≤ 3 ∧
    (crawl_aux fetchCycleSelf ⟨0, 0⟩ 3 "http://s/a" []).fetched.Nodup ∧
    (crawl_aux fetchCycleSelf ⟨0, 0⟩ 3 "http://s/a" []).fetched =
      ["http://s/a", "http://s/b"] := by
  have hnr : ∀ u fu d, fetchCycleSelf u = .ok (fu, d) → fu = u := by
    intro u fu d h
    rw [fetchCycleSelf] at h
    split at h <;> (injection h with h1; exact (congrArg Prod.fst h1).symm)
  exact ⟨(pagination_budget_and_no_revisit fetchCycleSelf ⟨0, 0⟩ 3
      "http://s/a").2.1,
    ((pagination_budget_and_no_revisit fetchCycleSelf ⟨0, 0⟩ 3
      "http://s/a").2.2 hnr).1, by decide⟩

/-- C3 fails as stated: with a redirecting fetcher (`b` resolves to the
page of `a`, whose next link is `b`) the walker fetches the URL `b` twice
and obtains the resolved URL `a` three times before the page budget stops
it — the same resolved URL is fetched more than once. -/
theorem pagination_revisit_counterexample :
    (crawl_aux fetchCycle ⟨0, 0⟩ 3 "http://s/a" []).resolved =
      ["http://s/a", "http://s/a", "http://s/a"] ∧
    (crawl_aux fetchCycle ⟨0, 0⟩ 3 "http://s/a" []).fetched =
      ["http://s/a", "http://s/b", "http://s/b"] ∧
    ¬ (crawl_aux fetchCycle ⟨0, 0⟩ 3 "http://s/a" []).resolved.Nodup ∧
    ¬ (crawl_aux fetchCycle ⟨0, 0⟩ 3 "http://s/a" []).fetched.Nodup :=
  ⟨by decide, by decide, by decide, by decide⟩

end MobileSentrix
